import Mathlib

/-
Verification development for the snaketalk event-routing core.

The definitions below are shallow embeddings of the Python source files
src/snaketalk/driver.py (class ThreadPool), src/snaketalk/event_handler.py
(class EventHandler), src/snaketalk/message_handler.py (class MessageHandler),
src/snaketalk/message.py (class Message) and src/snaketalk/plugins/base.py
(class Plugin).  Regular expressions are modelled by a small abstract syntax
tree together with a backtracking matcher that follows the semantics of the
Python re module (leftmost match, greedy quantifiers, match anchored at the
start of the string, search unanchored).
-/

namespace Snaketalk

/-- Characters treated as whitespace by the Python regex class \s and by
str.strip() (ASCII fragment: space, tab, newline, carriage return, vertical
tab, form feed). -/
def pySpace (c : Char) : Bool :=
  c = ' ' || c = Char.ofNat 9 || c = Char.ofNat 10 || c = Char.ofNat 13 ||
  c = Char.ofNat 11 || c = Char.ofNat 12

/-- Models Python str.strip(chars): removes characters satisfying the
predicate from both ends of the string. -/
def pyStripGen (pred : Char → Bool) (s : String) : String :=
  String.mk (((s.data.dropWhile pred).reverse.dropWhile pred).reverse)

/-- Models Python str.strip() with no argument (strip whitespace). -/
def pyStrip (s : String) : String := pyStripGen pySpace s

/-- Models the expression message.sender_name of src/snaketalk/message.py:
self.body["data"].get("sender_name", "").strip().strip("@"). -/
def senderNameOf (s : String) : String :=
  pyStripGen (fun c => c = '@') (pyStrip s)

/-- Models Python str.lower() (ASCII fragment). -/
def pyLower (s : String) : String := String.mk (s.data.map Char.toLower)

/-- Character classes appearing in the regex patterns of the repository:
word is the regex class backslash-w, space is backslash-s. -/
inductive CharClass where
  | word
  | space
deriving DecidableEq, Repr

/-- Membership of a character in a character class (ASCII fragment of the
Python re semantics). -/
def CharClass.mem : CharClass → Char → Bool
  | .word, c => c.isAlphanum || c = '_'
  | .space, c => pySpace c

/-- Abstract syntax of the regular expressions used by the repository:
empty pattern, literal character, character class, concatenation,
alternation, greedy Kleene star, capturing group, the anchors caret
(beginning of string) and dollar (end of string, or just before a final
newline, as in the Python re module without MULTILINE). -/
inductive Re where
  | eps
  | chr (c : Char)
  | cls (k : CharClass)
  | seq (a b : Re)
  | alt (a b : Re)
  | star (a : Re)
  | group (a : Re)
  | bol
  | eol
deriving DecidableEq, Repr

/-- Number of capturing groups of a pattern, in the numbering order of the
Python re module (a group is numbered before the groups it contains). -/
def Re.ngroups : Re → Nat
  | .seq a b => a.ngroups + b.ngroups
  | .alt a b => a.ngroups + b.ngroups
  | .star a => a.ngroups
  | .group a => a.ngroups + 1
  | _ => 0

/-- Capture list of a match, one entry per capturing group, in group order;
none stands for a group that did not participate in the match (Python None). -/
abbrev Caps : Type := List (Option String)

/-- Structural size of a pattern, used to compute a sufficient recursion
budget for the matcher. -/
def Re.reSize : Re → Nat
  | .seq a b => a.reSize + b.reSize + 1
  | .alt a b => a.reSize + b.reSize + 1
  | .star a => a.reSize + 1
  | .group a => a.reSize + 1
  | _ => 1

/-- Backtracking matcher.  mtch fuel re g0 pos s caps returns the list of all
ways re can match a prefix of s (the remaining characters, the new absolute
position and the updated captures), ordered by the preference order of the
Python re module: the head of the list is the match Python produces.  g0 is
the index of the first capturing group inside re, pos the absolute position
of s inside the subject string.  The fuel decreases at every recursive call;
every star iteration consumes at least one character (non-progressing
iterations are discarded, as the re module discards zero-width repetitions),
so the fuel supplied by reMatch is never exhausted. -/
def mtch : Nat → Re → Nat → Nat → List Char → Caps →
    List (List Char × Nat × Caps)
  | 0, _, _, _, _, _ => []
  | fuel + 1, re, g0, pos, s, caps =>
    match re with
    | .eps => [(s, pos, caps)]
    | .chr c =>
        match s with
        | [] => []
        | c2 :: rest => if c2 = c then [(rest, pos + 1, caps)] else []
    | .cls k =>
        match s with
        | [] => []
        | c2 :: rest => if k.mem c2 then [(rest, pos + 1, caps)] else []
    | .seq a b =>
        (mtch fuel a g0 pos s caps).flatMap
          (fun r => mtch fuel b (g0 + a.ngroups) r.2.1 r.1 r.2.2)
    | .alt a b =>
        mtch fuel a g0 pos s caps ++ mtch fuel b (g0 + a.ngroups) pos s caps
    | .star a =>
        (((mtch fuel a g0 pos s caps).filter (fun r => pos < r.2.1)).flatMap
          (fun r => mtch fuel (.star a) g0 r.2.1 r.1 r.2.2)) ++ [(s, pos, caps)]
    | .group a =>
        (mtch fuel a (g0 + 1) pos s caps).map
          (fun r =>
            (r.1, r.2.1, r.2.2.set g0 (some (String.mk (s.take (r.2.1 - pos))))))
    | .bol => if pos = 0 then [(s, pos, caps)] else []
    | .eol =>
        if s = [] ∨ s = [Char.ofNat 10] then [(s, pos, caps)] else []

/-- Recursion budget that the matcher can never exhaust on the given
subject: one unit per pattern node per star iteration, with slack. -/
def reFuel (re : Re) (len : Nat) : Nat := (len + 2) * (re.reSize + 2)

/-- Models re.Pattern.match(text) of the Python re module: the pattern must
match starting at position 0 of the text (the end is not anchored).  Returns
the number of characters consumed and the captures of the leftmost greedy
match, or none when there is no match at position 0. -/
def reMatch (re : Re) (t : String) : Option (Nat × Caps) :=
  ((mtch (reFuel re t.length) re 0 0 t.data (List.replicate re.ngroups none)).head?).map
    (fun r => (r.2.1, r.2.2))

/-- Helper for reSearch: tries to match at the given position, then at each
later position. -/
def searchFrom (re : Re) (fuel : Nat) (pos : Nat) (s : List Char) :
    Option (Nat × Nat × Caps) :=
  match (mtch fuel re 0 pos s (List.replicate re.ngroups none)).head? with
  | some r => some (pos, r.2.1, r.2.2)
  | none =>
    match s with
    | [] => none
    | _ :: rest => searchFrom re fuel (pos + 1) rest

/-- Models re.Pattern.search(text) of the Python re module: an unanchored
scan that returns the leftmost position at which the pattern matches,
together with the end position and captures of that match. -/
def reSearch (re : Re) (t : String) : Option (Nat × Nat × Caps) :=
  searchFrom re (reFuel re t.length) 0 t.data

/-- Literal string as a regex (concatenation of literal characters).  This
models the unescaped interpolation of the bot username into the mention
pattern, for usernames containing no regex metacharacters. -/
def strRe (s : String) : Re := s.data.foldr (fun c acc => Re.seq (.chr c) acc) .eps

/-- Greedy question-mark quantifier of the re module, encoded as a greedy
alternative with the empty pattern. -/
def optRe (a : Re) : Re := .alt a .eps

/-- Greedy plus quantifier of the re module, encoded as one occurrence
followed by a star (the patterns of this repository never place a capturing
group under a plus, so the group numbering is unaffected). -/
def plusRe (a : Re) : Re := .seq a (.star a)

/-- Models the compiled pattern self._name_matcher of
src/snaketalk/event_handler.py line 30: re.compile(rf"^@?{username}\:?\s?")
(the at sign is optional). -/
def nameMatcherEH (username : String) : Re :=
  .seq .bol (.seq (optRe (.chr '@'))
    (.seq (strRe username) (.seq (optRe (.chr ':')) (optRe (.cls .space)))))

/-- Models the compiled pattern self._name_matcher of
src/snaketalk/message_handler.py line 34: re.compile(rf"^@{username}\:?\s?")
(the at sign is mandatory). -/
def nameMatcherMH (username : String) : Re :=
  .seq .bol (.seq (.chr '@')
    (.seq (strRe username) (.seq (optRe (.chr ':')) (optRe (.cls .space)))))

/-- Models pattern.sub("", text) for a pattern anchored at the beginning of
the string by a caret: the substitution applies at most once, removing the
matched prefix, because after the first replacement the caret can no longer
match (the re module treats the caret as position 0 only, without
MULTILINE). -/
def reSubEmpty (re : Re) (t : String) : String :=
  match reMatch re t with
  | some (n, _) => String.mk (t.data.drop n)
  | none => t

/-- Mention stripping of EventHandler: self._name_matcher.sub("", text). -/
def stripEH (username : String) (t : String) : String :=
  reSubEmpty (nameMatcherEH username) t

/-- Mention stripping of MessageHandler: self._name_matcher.sub("", text). -/
def stripMH (username : String) (t : String) : String :=
  reSubEmpty (nameMatcherMH username) t

/-- Model of the Python values manipulated by handle_event: strings and
dictionaries with string keys.  jencoded v stands for a string whose JSON
decoding yields v (the "post" and "mentions" envelope fields arrive as
JSON-encoded strings); jstr s stands for a plain string that is not valid
JSON (all message texts and names in the payloads of interest). -/
inductive JVal where
  | jstr (s : String)
  | jencoded (v : JVal)
  | jobj (kvs : List (String × JVal))

/-- Exceptions that the handler code can raise: KeyError from a dictionary
subscript, TypeError, AttributeError, and a json.JSONDecodeError from
json.loads. -/
inductive PyErr where
  | keyError (k : String)
  | typeError
  | attrError
  | jsonError
deriving DecidableEq, Repr

/-- Dictionary lookup on an association list (first binding wins; jsetKvs
keeps keys unique, as a Python dict does). -/
def jget (kvs : List (String × JVal)) (k : String) : Option JVal :=
  match kvs.find? (fun kv => kv.1 = k) with
  | some kv => some kv.2
  | none => none

/-- Dictionary assignment d[k] = v: overwrite the binding of k, or append a
new binding (Python dicts keep insertion order). -/
def jsetKvs (kvs : List (String × JVal)) (k : String) (v : JVal) :
    List (String × JVal) :=
  match kvs with
  | [] => [(k, v)]
  | (k2, w) :: rest =>
      if k2 = k then (k2, v) :: rest else (k2, w) :: jsetKvs rest k v

/-- Models d.get(k): returns none for a missing key; calling .get on a
non-dictionary raises AttributeError. -/
def pyGetOpt (v : JVal) (k : String) : Except PyErr (Option JVal) :=
  match v with
  | .jobj kvs => .ok (jget kvs k)
  | _ => .error .attrError

/-- Models d.get(k, default). -/
def pyGetD (v : JVal) (k : String) (d : JVal) : Except PyErr JVal :=
  (pyGetOpt v k).map (fun o => o.getD d)

/-- Models the subscript d[k]: KeyError when the key is missing, TypeError
when the value is not a dictionary. -/
def pyIndex (v : JVal) (k : String) : Except PyErr JVal :=
  match v with
  | .jobj kvs =>
      match jget kvs k with
      | some w => .ok w
      | none => .error (.keyError k)
  | _ => .error .typeError

/-- Models the assignment d[k] = v. -/
def jSet (v : JVal) (k : String) (w : JVal) : Except PyErr JVal :=
  match v with
  | .jobj kvs => .ok (.jobj (jsetKvs kvs k w))
  | _ => .error .typeError

/-- Python truthiness of the modelled values: the empty string and the empty
dictionary are falsy; a JSON-encoded string is never empty, hence truthy. -/
def truthy : JVal → Bool
  | .jstr s => s != ""
  | .jencoded _ => true
  | .jobj kvs => !kvs.isEmpty

/-- Models json.loads applied to a field value: decoding a JSON-encoded
string yields the encoded value, decoding a plain non-JSON string raises
JSONDecodeError, and passing a non-string raises TypeError. -/
def jloads : JVal → Except PyErr JVal
  | .jencoded v => .ok v
  | .jstr _ => .error .jsonError
  | .jobj _ => .error .typeError

/-- Requires a plain string value: calling a string method such as .strip or
matching a pattern against a non-string raises. -/
def asStr : JVal → Except PyErr String
  | .jstr s => .ok s
  | _ => .error .attrError

/-- Models lines 84-86 of src/snaketalk/event_handler.py for one item of
["post", "mentions"]: if post.get("data", \x7b\x7d).get(item) is truthy,
reassign post["data"][item] to json.loads of it. -/
def decodeItem (post : JVal) (item : String) : Except PyErr JVal := do
  let d ← pyGetD post "data" (JVal.jobj [])
  match ← pyGetOpt d item with
  | none => pure post
  | some fv =>
      if truthy fv then do
        let v ← jloads fv
        let dv ← pyIndex post "data"
        let dv2 ← jSet dv item v
        jSet post "data" dv2
      else pure post

/-- Models the normalization prefix of EventHandler._handle_post (lines
83-91 of src/snaketalk/event_handler.py): decode the nested "post" and
"mentions" JSON strings, then strip a leading bot mention from the message
text with self._name_matcher.sub. -/
def normalizePost (username : String) (post : JVal) : Except PyErr JVal := do
  let post ← decodeItem post "post"
  let post ← decodeItem post "mentions"
  let d ← pyIndex post "data"
  let pv ← pyIndex d "post"
  let mv ← pyIndex pv "message"
  let s ← asStr mv
  let pv2 ← jSet pv "message" (.jstr (stripEH username s))
  let d2 ← jSet d "post" pv2
  jSet post "data" d2

/-- Models Message.text of src/snaketalk/message.py:
self.body["data"]["post"]["message"].strip(). -/
def msgText (post : JVal) : Except PyErr String := do
  let d ← pyIndex post "data"
  let p ← pyIndex d "post"
  let m ← pyIndex p "message"
  let s ← asStr m
  pure (pyStrip s)

/-- Models Message.sender_name of src/snaketalk/message.py:
self.body["data"].get("sender_name", "").strip().strip("@"). -/
def msgSenderName (post : JVal) : Except PyErr String := do
  let d ← pyIndex post "data"
  let v := (← pyGetOpt d "sender_name").getD (.jstr "")
  let s ← asStr v
  pure (senderNameOf s)

/-- Relevant bot settings: the list of ignored sender names. -/
structure Settings where
  IGNORE_USERS : List String
deriving DecidableEq, Repr

/-- Models EventHandler._should_ignore (lines 67-74 of
src/snaketalk/event_handler.py), applied to the sender name of the message:
the sender name, lowercased, is among the lowercased IGNORE_USERS, or
ignore_own_messages is set and the sender name equals the bot username. -/
def shouldIgnoreEH (settings : Settings) (ignoreOwn : Bool) (username : String)
    (senderName : String) : Bool :=
  (if (settings.IGNORE_USERS.map pyLower).contains (pyLower senderName)
   then true else false)
  || (ignoreOwn && senderName == username)

/-- Models the matching loop of EventHandler._handle_post (lines 98-113 of
src/snaketalk/event_handler.py): for every (matcher, functions) pair of the
aggregated listener dictionary, if matcher.match(message.text) succeeds,
collect the groups that are not the empty string and create one task per
function, invoking function.plugin.call_function(function, message, groups).
Functions are identified by numeric ids; an invocation records the function
id and the extra group arguments it receives. -/
def dispatchEH (L : List (Re × List Nat)) (text : String) : List (Nat × Caps) :=
  L.flatMap (fun e =>
    match reMatch e.1 text with
    | none => []
    | some (_, caps) => e.2.map (fun f => (f, caps.filter (fun g => g ≠ some ""))))

/-- Models the matching loop of MessageHandler._handle_post (lines 91-102 of
src/snaketalk/message_handler.py): same fan-out as dispatchEH but without
group extraction; call_function(function, message) is invoked once per
function of every matching pattern. -/
def dispatchMH (L : List (Re × List Nat)) (text : String) : List Nat :=
  L.flatMap (fun e => if (reMatch e.1 text).isSome then e.2 else [])

/-- Models EventHandler._handle_post (lines 82-113 of
src/snaketalk/event_handler.py): normalize the post, construct the message,
return with no dispatch when _should_ignore holds, otherwise fan out to all
matching listeners.  The returned list is the list of created tasks. -/
def handlePostEH (username : String) (settings : Settings) (ignoreOwn : Bool)
    (L : List (Re × List Nat)) (post : JVal) : Except PyErr (List (Nat × Caps)) := do
  let post ← normalizePost username post
  let sender ← msgSenderName post
  if shouldIgnoreEH settings ignoreOwn username sender then pure []
  else do
    let t ← msgText post
    pure (dispatchEH L t)

/-- Models EventHandler.handle_event (lines 76-80 of
src/snaketalk/event_handler.py).  The argument is the outcome of
json.loads(data): a decoding failure propagates out of handle_event, since
the source wraps nothing in try/except.  Otherwise the event discriminator
is read with post.get("event") and only "posted" events are handled. -/
def handleEventEH (username : String) (settings : Settings) (ignoreOwn : Bool)
    (L : List (Re × List Nat)) (raw : Except PyErr JVal) :
    Except PyErr (List (Nat × Caps)) := do
  let post ← raw
  match ← pyGetOpt post "event" with
  | some (.jstr "posted") => handlePostEH username settings ignoreOwn L post
  | _ => pure []

/-- Builds the raw envelope of a well-formed "posted" websocket event with
the given message text and sender display name: the "post" payload arrives
as a JSON-encoded string, as in the source commentary (lines 83-84 of
src/snaketalk/event_handler.py). -/
def mkPosted (text sender : String) : JVal :=
  .jobj [("event", .jstr "posted"),
         ("data", .jobj
            [("post", .jencoded (.jobj
                [("id", .jstr "pid1"), ("user_id", .jstr "uid1"),
                 ("channel_id", .jstr "cid1"), ("message", .jstr text)])),
             ("sender_name", .jstr sender),
             ("channel_type", .jstr "O")])]

/-- A task of the ThreadPool of src/snaketalk/driver.py: the (function, args)
pair put on the queue by add_task.  tid identifies the callable, raises
records whether invoking it raises an exception, sentinel marks the
(self._stop_thread, ()) pair enqueued by stop(). -/
structure Task where
  tid : Nat
  raises : Bool
  sentinel : Bool
deriving DecidableEq, Repr

/-- The sentinel task (self._stop_thread, tuple()) enqueued by stop():
invoking it returns immediately. -/
def sentinelTask : Task := { tid := 0, raises := false, sentinel := true }

/-- Program points of a worker thread running ThreadPool.handle_work (lines
58-67 of src/snaketalk/driver.py).  loopCheck: about to evaluate the loop
condition self.alive; atGet: blocked in self._queue.get(); gotTask: holding
a dequeued task, about to put a token on self._busy_workers; running:
busy token deposited, invoking function(*arguments); doneTask: the
invocation returned, about to call task_done and remove the busy token;
exited: the loop condition was false and handle_work returned; crashed:
the invocation raised, and since handle_work wraps it in no try/except the
exception propagated and terminated the thread with the busy token still
deposited. -/
inductive WStatus where
  | loopCheck
  | atGet
  | gotTask (t : Task)
  | running (t : Task)
  | doneTask (t : Task)
  | exited
  | crashed
deriving DecidableEq, Repr

/-- State of the ThreadPool together with its client threads: the alive
flag, the task queue (FIFO), the size of the _busy_workers queue, the
status of each worker thread, the log of the task ids whose invocation ran
to completion (in completion order), and whether stop() has finished
joining every worker. -/
structure PoolState where
  alive : Bool
  queue : List Task
  busy : Nat
  workers : List WStatus
  log : List Nat
  joined : Bool
deriving DecidableEq, Repr

/-- Observable steps of the system: the five steps of a worker iteration of
handle_work, and the client-side steps add_task, the alive := False
assignment of stop(), one sentinel enqueue of stop(), and the final join of
stop() (enabled once every worker thread has terminated, normally or by an
uncaught exception). -/
inductive PoolLabel where
  | wLoop (i : Nat)
  | wGet (i : Nat)
  | wBusy (i : Nat)
  | wRun (i : Nat)
  | wDone (i : Nat)
  | addTask (t : Task)
  | stopSignal
  | pushSentinel
  | joinAll
deriving DecidableEq, Repr

/-- A worker thread has terminated: its loop exited, or its invocation
raised and the exception killed the thread. -/
def terminated : WStatus → Bool
  | .exited => true
  | .crashed => true
  | _ => false

/-- One step of the interleaving semantics; none when the label is not
enabled in the given state. -/
def pstep (s : PoolState) (l : PoolLabel) : Option PoolState :=
  match l with
  | .wLoop i =>
      match s.workers.get? i with
      | some .loopCheck =>
          some { s with workers :=
            s.workers.set i (if s.alive then .atGet else .exited) }
      | _ => none
  | .wGet i =>
      match s.workers.get? i, s.queue with
      | some .atGet, t :: rest =>
          some { s with queue := rest, workers := s.workers.set i (.gotTask t) }
      | _, _ => none
  | .wBusy i =>
      match s.workers.get? i with
      | some (.gotTask t) =>
          some { s with busy := s.busy + 1, workers := s.workers.set i (.running t) }
      | _ => none
  | .wRun i =>
      match s.workers.get? i with
      | some (.running t) =>
          if t.raises then
            some { s with workers := s.workers.set i .crashed }
          else
            some { s with workers := s.workers.set i (.doneTask t),
                          log := s.log ++ [t.tid] }
      | _ => none
  | .wDone i =>
      match s.workers.get? i with
      | some (.doneTask _) =>
          some { s with busy := s.busy - 1, workers := s.workers.set i .loopCheck }
      | _ => none
  | .addTask t =>
      if t.sentinel then none else some { s with queue := s.queue ++ [t] }
  | .stopSignal => some { s with alive := false }
  | .pushSentinel =>
      if s.alive then none else some { s with queue := s.queue ++ [sentinelTask] }
  | .joinAll =>
      if s.workers.all terminated then some { s with joined := true } else none

/-- Runs a sequence of steps from a state; none as soon as a step is not
enabled. -/
def prun (s : PoolState) : List PoolLabel → Option PoolState
  | [] => some s
  | l :: ls =>
      match pstep s l with
      | some s2 => prun s2 ls
      | none => none

/-- State of a freshly started pool of n workers (ThreadPool.start, lines
34-40 of src/snaketalk/driver.py): alive is True, the queue is empty, no
busy token is deposited, and every worker thread is about to evaluate its
loop condition. -/
def initPool (n : Nat) : PoolState :=
  { alive := true, queue := [], busy := 0,
    workers := List.replicate n .loopCheck, log := [], joined := false }

/-- Number of invocation steps performed by worker i in a step sequence. -/
def countRun (i : Nat) (tr : List PoolLabel) : Nat :=
  tr.countP (fun l => l = .wRun i)

/-- Busy tokens attributable to one worker status: a worker holds a token
from the _busy_workers.put before its invocation until the
_busy_workers.get after it; a crashed worker never reaches the get and
holds its token forever. -/
def tok : WStatus → Nat
  | .running _ => 1
  | .doneTask _ => 1
  | .crashed => 1
  | _ => 0

/-- Total busy tokens attributable to a worker list. -/
def wsum (ws : List WStatus) : Nat := (ws.map tok).sum

/-- Upper bound on the number of invocations a worker can still begin once
the alive flag is false. -/
def runsLeft : WStatus → Nat
  | .atGet => 1
  | .gotTask _ => 1
  | .running _ => 1
  | _ => 0

/-- Modelled from the spec: the Function class of snaketalk.function is not
under src/; per section 4.1 of the specification a registration primitive
binds a handler to a compiled pattern, and stacked registrations on the same
handler produce sibling Listeners sharing that handler.  A FuncCore is one
such declared listener: its handler identity and its compiled pattern. -/
structure FuncCore where
  fid : Nat
  matcher : Re
deriving DecidableEq, Repr

/-- Modelled from the spec: a member attribute of a plugin class holding a
Function object, together with the sibling Functions produced by stacked
registrations on the same handler (registering one registers all, section
4.1 of the specification). -/
structure FuncDecl where
  core : FuncCore
  siblings : List FuncCore
deriving DecidableEq, Repr

/-- A listener as registered by Plugin.initialize: the declared listener
with its function.plugin back-reference set (owner is the numeric id of the
owning plugin, none before registration). -/
structure RegFunc where
  fid : Nat
  matcher : Re
  owner : Option Nat
deriving DecidableEq, Repr

/-- State of a Plugin of src/snaketalk/plugins/base.py: its identity, its
declared member Functions in discovery order (dir enumeration), the bound
driver, and the listeners dictionary from compiled pattern to the list of
registered Functions (a defaultdict(list), modelled as an association list
in key insertion order). -/
structure RPlugin where
  pid : Nat
  members : List FuncDecl
  driver : Option Nat
  listeners : List (Re × List RegFunc)
deriving DecidableEq, Repr

/-- Appends one registered function to the listeners dictionary under its
matcher key: self.listeners[function.matcher].append(function) on a
defaultdict(list). -/
def addListener (ls : List (Re × List RegFunc)) (g : RegFunc) :
    List (Re × List RegFunc) :=
  match ls with
  | [] => [(g.matcher, [g])]
  | (m, fs) :: rest =>
      if m = g.matcher then (m, fs ++ [g]) :: rest
      else (m, fs) :: addListener rest g

/-- Reads listeners[pat] of the defaultdict: the empty list when the key is
absent. -/
def lookupL (ls : List (Re × List RegFunc)) (pat : Re) : List RegFunc :=
  match ls with
  | [] => []
  | (m, fs) :: rest => if m = pat then fs else lookupL rest pat

/-- The flattened registration sequence produced by one run of the discovery
loop of Plugin.initialize (lines 30-37 of src/snaketalk/plugins/base.py):
for every member Function in discovery order, the Function itself followed
by its siblings, each with function.plugin set to this plugin. -/
def regList (p : RPlugin) : List RegFunc :=
  (p.members.flatMap (fun dcl => dcl.core :: dcl.siblings)).map
    (fun c => { fid := c.fid, matcher := c.matcher, owner := some p.pid })

/-- Models Plugin.initialize (lines 27-39 of src/snaketalk/plugins/base.py):
bind the driver, then for every discovered Function and its siblings set the
plugin back-reference and append to listeners[matcher]; returns self (here,
the updated plugin value). -/
def initPlugin (p : RPlugin) (d : Nat) : RPlugin :=
  { p with driver := some d,
           listeners := (regList p).foldl addListener p.listeners }

/-- Normalized text of a posted message with raw text raw, as dispatched by
EventHandler: the bot mention prefix is stripped by _name_matcher.sub and
Message.text then strips surrounding whitespace. -/
def normTextEH (u raw : String) : String := pyStrip (stripEH u raw)

/-- Number of invocations of the function with id f among the created
tasks. -/
def countInv (f : Nat) (invs : List (Nat × Caps)) : Nat :=
  invs.countP (fun x => x.1 == f)

/-- Settings with no ignored senders. -/
def benignSettings : Settings := ⟨[]⟩

/-- The pattern of the specification scenario: ^!a (backslash-w+)$. -/
def reP1 : Re :=
  .seq .bol (.seq (strRe "!a ") (.seq (.group (plusRe (.cls .word))) .eol))

/-- The pattern of the specification scenario: ^!a. -/
def reP2 : Re := .seq .bol (strRe "!a")

/-- An unanchored literal pattern: ping. -/
def rePing : Re := strRe "ping"

/-- A task that returns normally, id 1. -/
def taskOk1 : Task := { tid := 1, raises := false, sentinel := false }

/-- A task that returns normally, id 2. -/
def taskOk2 : Task := { tid := 2, raises := false, sentinel := false }

/-- A task whose invocation raises, id 1. -/
def taskRaise1 : Task := { tid := 1, raises := true, sentinel := false }

/-- Schedule refuting claim C2 on a pool with one worker: the worker blocks
in queue.get, two tasks are enqueued, stop() flips the alive flag, enqueues
its sentinel and joins; the worker dequeues and completes only the first
task, observes alive == False at its next loop check and exits, so the join
of stop() returns while the second task is still on the queue. -/
def dropTrace : List PoolLabel :=
  [.wLoop 0, .addTask taskOk1, .addTask taskOk2, .stopSignal, .pushSentinel,
   .wGet 0, .wBusy 0, .wRun 0, .wDone 0, .wLoop 0, .joinAll]

/-- Schedule refuting claim C3 on a pool with one worker: two tasks are
enqueued, the worker dequeues the first, deposits its busy token and invokes
it; the invocation raises, and since handle_work has no try/except the
exception terminates the worker thread. -/
def crashTrace : List PoolLabel :=
  [.addTask taskRaise1, .addTask taskOk2, .wLoop 0, .wGet 0, .wBusy 0, .wRun 0]

/-- A syntactically valid envelope whose shape _handle_post does not expect:
the event discriminator is "posted" but data carries no "post" field. -/
def badPosted : JVal := .jobj [("event", .jstr "posted"), ("data", .jobj [])]

/-- A concrete plugin for the initialization scenario: one member with a
sibling registration on a second pattern, and one further member sharing
that second pattern. -/
def samplePlugin : RPlugin :=
  { pid := 3,
    members := [{ core := { fid := 10, matcher := reP1 },
                  siblings := [{ fid := 10, matcher := reP2 }] },
                { core := { fid := 11, matcher := reP2 }, siblings := [] }],
    driver := none, listeners := [] }

/-- Upper bound on the invocations worker i can still begin, read off the
pool state (a missing index counts as a terminated worker). -/
def runsLeftAt (s : PoolState) (i : Nat) : Nat :=
  runsLeft ((s.workers.get? i).getD .exited)

end Snaketalk

namespace Snaketalk

theorem handlePost_mkPosted (u raw sender : String) (st : Settings) (ign : Bool)
    (L : List (Re × List Nat)) :
    handlePostEH u st ign L (mkPosted raw sender)
      = if shouldIgnoreEH st ign u (senderNameOf sender) then .ok []
        else .ok (dispatchEH L (normTextEH u raw)) := rfl

theorem dispatchEH_append (A B : List (Re × List Nat)) (t : String) :
    dispatchEH (A ++ B) t = dispatchEH A t ++ dispatchEH B t := by
  simp [dispatchEH]

theorem dispatchMH_append (A B : List (Re × List Nat)) (t : String) :
    dispatchMH (A ++ B) t = dispatchMH A t ++ dispatchMH B t := by
  simp [dispatchMH]

theorem countInv_append (f : Nat) (a b : List (Nat × Caps)) :
    countInv f (a ++ b) = countInv f a + countInv f b := by
  simp [countInv, List.countP_append]

theorem countInv_entry (f : Nat) (p : Re) (fs : List Nat) (t : String) :
    countInv f (dispatchEH [(p, fs)] t)
      = if (reMatch p t).isSome then fs.count f else 0 := by
  cases h : reMatch p t with
  | none => simp [dispatchEH, countInv, h]
  | some r =>
      simp only [dispatchEH, List.flatMap_cons, List.flatMap_nil, List.append_nil, h,
        Option.isSome_some, if_true, countInv, List.countP_map, List.count]
      rfl

theorem countInv_zero (f : Nat) (A : List (Re × List Nat)) (t : String)
    (h : ∀ e ∈ A, f ∉ e.2) : countInv f (dispatchEH A t) = 0 := by
  induction A with
  | nil => rfl
  | cons e A ih =>
      have he : f ∉ e.2 := h e (List.mem_cons_self e A)
      have hA : ∀ e2 ∈ A, f ∉ e2.2 := fun e2 hm => h e2 (List.mem_cons_of_mem e hm)
      have : dispatchEH (e :: A) t = dispatchEH [e] t ++ dispatchEH A t := by
        simpa using dispatchEH_append [e] A t
      rw [this, countInv_append, ih hA]
      rcases e with ⟨p, fs⟩
      cases hm : reMatch p t with
      | none => simp [dispatchEH, countInv, hm]
      | some r =>
          simp only [dispatchEH, List.flatMap_cons, List.flatMap_nil, List.append_nil, hm,
            countInv, List.countP_map, Nat.add_zero]
          rw [List.countP_eq_zero]
          intro a ha
          simp only [Function.comp]
          exact by simpa using fun hEq => he (by simpa [hEq] using ha)

theorem countMH_entry (f : Nat) (p : Re) (fs : List Nat) (t : String) :
    (dispatchMH [(p, fs)] t).count f
      = if (reMatch p t).isSome then fs.count f else 0 := by
  cases h : reMatch p t <;> simp [dispatchMH, h]

theorem countMH_zero (f : Nat) (A : List (Re × List Nat)) (t : String)
    (h : ∀ e ∈ A, f ∉ e.2) : (dispatchMH A t).count f = 0 := by
  induction A with
  | nil => rfl
  | cons e A ih =>
      have he : f ∉ e.2 := h e (List.mem_cons_self e A)
      have hA : ∀ e2 ∈ A, f ∉ e2.2 := fun e2 hm => h e2 (List.mem_cons_of_mem e hm)
      have hsplit : dispatchMH (e :: A) t = dispatchMH [e] t ++ dispatchMH A t := by
        simpa using dispatchMH_append [e] A t
      rw [hsplit, List.count_append, ih hA]
      rcases e with ⟨p, fs⟩
      cases hm : reMatch p t with
      | none => simp [dispatchMH, hm]
      | some r =>
          simp only [dispatchMH, hm, List.flatMap_cons, List.flatMap_nil, List.append_nil,
            Option.isSome_some, if_true, Nat.add_zero]
          exact List.count_eq_zero.mpr he

/-- C1: for every registered pattern p and every posted message, handling
the event invokes every listener registered under a matching pattern exactly
once per listener, with no first-match-wins short-circuit: a function f
registered once under p (and nowhere else) is invoked exactly once when p
matches the normalized text and never otherwise, whatever listeners L1 and
L2 surround its entry — so the number of other matching patterns never
changes the set of invoked listeners.  Both the EventHandler and the
MessageHandler fan-out loops are covered. -/
theorem dispatch_invokes_each_listener_once
    (u raw sender : String) (L1 L2 : List (Re × List Nat)) (p : Re)
    (fs : List Nat) (f : Nat)
    (hcount : fs.count f = 1)
    (hout : ∀ e ∈ L1 ++ L2, f ∉ e.2) :
    ∃ invs,
      handlePostEH u benignSettings false (L1 ++ (p, fs) :: L2) (mkPosted raw sender)
          = .ok invs
      ∧ countInv f invs
          = (if (reMatch p (normTextEH u raw)).isSome then 1 else 0)
      ∧ (dispatchMH (L1 ++ (p, fs) :: L2) (normTextEH u raw)).count f
          = (if (reMatch p (normTextEH u raw)).isSome then 1 else 0) := by
  have h1 : ∀ e ∈ L1, f ∉ e.2 := fun e hm => hout e (List.mem_append_left _ hm)
  have h2 : ∀ e ∈ L2, f ∉ e.2 := fun e hm => hout e (List.mem_append_right _ hm)
  refine ⟨dispatchEH (L1 ++ (p, fs) :: L2) (normTextEH u raw), rfl, ?_, ?_⟩
  · have hs : (L1 ++ (p, fs) :: L2) = L1 ++ [(p, fs)] ++ L2 := by simp
    rw [hs, dispatchEH_append, dispatchEH_append, countInv_append, countInv_append,
      countInv_zero f L1 _ h1, countInv_zero f L2 _ h2, countInv_entry, hcount]
    omega
  · have hs : (L1 ++ (p, fs) :: L2) = L1 ++ [(p, fs)] ++ L2 := by simp
    rw [hs, dispatchMH_append, dispatchMH_append, List.count_append, List.count_append,
      countMH_zero f L1 _ h1, countMH_zero f L2 _ h2, countMH_entry, hcount]
    omega

/-- Witness for C1: a registry with three patterns of which two match the
input.  Function 7 registered under the second pattern is dispatched exactly
once, unaffected by the surrounding matching pattern. -/
theorem dispatch_invokes_each_listener_once_witness :
    ∃ invs,
      handlePostEH "bot" benignSettings false
          ([(reP1, [5])] ++ (reP2, [7]) :: [(rePing, [9])])
          (mkPosted "!a foo" "alice") = .ok invs
      ∧ countInv 7 invs
          = (if (reMatch reP2 (normTextEH "bot" "!a foo")).isSome then 1 else 0)
      ∧ (dispatchMH ([(reP1, [5])] ++ (reP2, [7]) :: [(rePing, [9])])
          (normTextEH "bot" "!a foo")).count 7
          = (if (reMatch reP2 (normTextEH "bot" "!a foo")).isSome then 1 else 0) :=
  dispatch_invokes_each_listener_once "bot" "!a foo" "alice"
    [(reP1, [5])] [(rePing, [9])] reP2 [7] 7 (by decide) (by decide)

/-- C4 counterexample: the dispatch engine does not apply patterns as an
unanchored full-text search.  The unanchored pattern ping occurs in the
normalized text "x ping" (re.search finds it at position 2), yet handling
the event invokes no listener, because the loop uses re.Pattern.match,
which anchors the pattern at the start of the text. -/
theorem match_is_start_anchored_cex :
    (reSearch rePing (normTextEH "bot" "x ping")).isSome = true
    ∧ handlePostEH "bot" benignSettings false [(rePing, [7])]
        (mkPosted "x ping" "alice") = .ok [] :=
  ⟨by decide, rfl⟩

/-- C4 as amended: for every registered pattern and every normalized message
text, the dispatch engine applies the pattern anchored at the beginning of
the text, in the manner of re.Pattern.match: a listener fires exactly when
its pattern matches starting at position 0 (the end is unconstrained unless
the pattern anchors it), and a match occurring only later in the text does
not fire the listener. -/
theorem listener_fires_iff_match_at_start
    (u raw sender : String) (L1 L2 : List (Re × List Nat)) (p : Re)
    (fs : List Nat) (f : Nat)
    (hf : f ∈ fs)
    (hout : ∀ e ∈ L1 ++ L2, f ∉ e.2) :
    ∃ invs,
      handlePostEH u benignSettings false (L1 ++ (p, fs) :: L2) (mkPosted raw sender)
          = .ok invs
      ∧ (invs.countP (fun x => x.1 == f) ≠ 0
           ↔ (reMatch p (normTextEH u raw)).isSome = true) := by
  have h1 : ∀ e ∈ L1, f ∉ e.2 := fun e hm => hout e (List.mem_append_left _ hm)
  have h2 : ∀ e ∈ L2, f ∉ e.2 := fun e hm => hout e (List.mem_append_right _ hm)
  refine ⟨dispatchEH (L1 ++ (p, fs) :: L2) (normTextEH u raw), rfl, ?_⟩
  have hs : (L1 ++ (p, fs) :: L2) = L1 ++ [(p, fs)] ++ L2 := by simp
  have hcnt : (dispatchEH (L1 ++ (p, fs) :: L2) (normTextEH u raw)).countP (fun x => x.1 == f)
      = countInv f (dispatchEH (L1 ++ (p, fs) :: L2) (normTextEH u raw)) := rfl
  rw [hcnt, hs, dispatchEH_append, dispatchEH_append, countInv_append, countInv_append,
    countInv_zero f L1 _ h1, countInv_zero f L2 _ h2, countInv_entry]
  have hfpos : 0 < fs.count f := List.count_pos_iff.mpr hf
  cases hm : (reMatch p (normTextEH u raw)).isSome
  · simp
  · simp
    omega

/-- Witness for C4 as amended: with the unanchored pattern ping and text
"x ping", the pattern does not match at position 0 and the listener does not
fire. -/
theorem listener_fires_iff_match_at_start_witness :
    ∃ invs,
      handlePostEH "bot" benignSettings false ([] ++ (rePing, [7]) :: [])
          (mkPosted "x ping" "alice") = .ok invs
      ∧ (invs.countP (fun x => x.1 == 7) ≠ 0
           ↔ (reMatch rePing (normTextEH "bot" "x ping")).isSome = true) :=
  listener_fires_iff_match_at_start "bot" "x ping" "alice" [] [] rePing [7] 7
    (by decide) (by decide)

/-- C5: an inbound message whose sender name is, case-insensitively, in the
ignore set, or whose sender equals the bot identity while ignore_self is
enabled, invokes no listener, produces no error and returns normally, for
any text content and any listener registry. -/
theorem ignored_sender_no_dispatch
    (u raw sender : String) (st : Settings) (ign : Bool)
    (L : List (Re × List Nat))
    (h : pyLower (senderNameOf sender) ∈ st.IGNORE_USERS.map pyLower
         ∨ (ign = true ∧ senderNameOf sender = u)) :
    handlePostEH u st ign L (mkPosted raw sender) = .ok [] := by
  rw [handlePost_mkPosted]
  have hig : shouldIgnoreEH st ign u (senderNameOf sender) = true := by
    unfold shouldIgnoreEH
    rcases h with h | ⟨h1, h2⟩
    · obtain ⟨a, ha, hEq⟩ := List.mem_map.mp h
      simp
      exact Or.inl ⟨a, ha, hEq⟩
    · subst h1
      simp [h2]
  rw [hig]
  rfl

/-- Witness for C5: the sender display name " @Troll " normalizes to Troll,
which is in the ignore set up to case, so the matching listener on pattern
reP2 is never invoked even though the text matches it. -/
theorem ignored_sender_no_dispatch_witness :
    handlePostEH "bot" ⟨["troll"]⟩ false [(reP2, [7])] (mkPosted "!a x" " @Troll ")
      = .ok [] :=
  ignored_sender_no_dispatch "bot" "!a x" " @Troll " ⟨["troll"]⟩ false
    [(reP2, [7])] (Or.inl (by decide))

/-- C6 counterexample: the mention stripping is not idempotent, and the at
sign is not optional in MessageHandler.  A second application of the
EventHandler strip to "@bot @bot hi" removes a second mention token, and the
MessageHandler pattern (mandatory at sign) leaves "bot: hello" unchanged
even though it carries a mention token of the claimed shape without "@". -/
theorem mention_strip_not_idempotent_cex :
    stripEH "bot" (stripEH "bot" "@bot @bot hi") ≠ stripEH "bot" "@bot @bot hi"
    ∧ stripMH "bot" "bot: hello" = "bot: hello" :=
  ⟨by decide, rfl⟩

/-- C6 as amended: each single application of the mention stripping removes
one leading token (optional at sign for EventHandler, mandatory at sign for
MessageHandler, then the bot username, an optional colon and an optional
single whitespace) exactly once and never more, so "@bot: hello" normalizes
to "hello" and "hello" is left unchanged; the operation is not idempotent in
general, since a repeated mention prefix loses exactly one token per
application. -/
theorem mention_strip_examples :
    stripEH "bot" "@bot: hello" = "hello"
    ∧ stripEH "bot" "hello" = "hello"
    ∧ stripMH "bot" "@bot: hello" = "hello"
    ∧ stripEH "bot" "@bot @bot hi" = "@bot hi"
    ∧ stripMH "bot" "@bot @bot hi" = "@bot hi" :=
  ⟨rfl, rfl, rfl, rfl, rfl⟩

/-- C7: on a pattern match, the captured regex groups that are not the empty
string are passed to each dispatched handler of that pattern as its extra
positional arguments. -/
theorem groups_passed_to_handler
    (u raw sender : String) (L1 L2 : List (Re × List Nat)) (p : Re)
    (fs : List Nat) (f : Nat) (n : Nat) (caps : Caps)
    (hf : f ∈ fs) (hm : reMatch p (normTextEH u raw) = some (n, caps)) :
    ∃ invs,
      handlePostEH u benignSettings false (L1 ++ (p, fs) :: L2) (mkPosted raw sender)
          = .ok invs
      ∧ (f, caps.filter (fun g => g ≠ some "")) ∈ invs := by
  refine ⟨dispatchEH (L1 ++ (p, fs) :: L2) (normTextEH u raw), rfl, ?_⟩
  have hmem : (f, caps.filter (fun g => g ≠ some ""))
      ∈ dispatchEH [(p, fs)] (normTextEH u raw) := by
    simp only [dispatchEH, List.flatMap_cons, List.flatMap_nil, List.append_nil, hm]
    exact List.mem_map.mpr ⟨f, hf, rfl⟩
  have hs : (L1 ++ (p, fs) :: L2) = L1 ++ ([(p, fs)] ++ L2) := by simp
  rw [hs, dispatchEH_append, dispatchEH_append]
  exact List.mem_append_right _ (List.mem_append_left _ hmem)

/-- Witness for C7: the specification scenario.  Listeners on the patterns
of reP1 and reP2 both fire on "!a foo": the first receives the single extra
argument "foo", the second receives no extra arguments; the membership fact
is obtained from the theorem itself. -/
theorem groups_passed_to_handler_witness :
    (handlePostEH "bot" benignSettings false [(reP1, [1]), (reP2, [2])]
        (mkPosted "!a foo" "alice") = .ok [(1, [some "foo"]), (2, [])])
    ∧ ∃ invs,
        handlePostEH "bot" benignSettings false ([] ++ (reP1, [1]) :: [(reP2, [2])])
            (mkPosted "!a foo" "alice") = .ok invs
        ∧ (1, ([some "foo"] : Caps).filter (fun g => g ≠ some "")) ∈ invs :=
  ⟨rfl,
   groups_passed_to_handler "bot" "!a foo" "alice" [] [(reP2, [2])] reP1 [1] 1 6
     [some "foo"] (by decide) (by decide)⟩

/-- C8 counterexample: a malformed or unexpectedly shaped payload is not
dropped with a logged diagnostic; it raises out of handle_event.  A payload
that is valid JSON but lacks the nested "post" field raises KeyError, and a
payload that is not valid JSON propagates the json.loads failure, since
handle_event wraps nothing in try/except. -/
theorem malformed_payload_raises_cex :
    handleEventEH "bot" benignSettings false [] (.ok badPosted)
        = .error (.keyError "post")
    ∧ handleEventEH "bot" benignSettings false [] (.error .jsonError)
        = .error .jsonError :=
  ⟨rfl, rfl⟩

/-- C8 as amended: handle_event silently drops events whose discriminator
field is absent or different from "posted" and returns normally; but a
payload that fails JSON decoding raises out of handle_event (the error
propagates to the caller), as does a posted event with missing expected
nested fields. -/
theorem unposted_events_dropped
    (u : String) (st : Settings) (ign : Bool) (L : List (Re × List Nat))
    (v : JVal) (ev : Option JVal)
    (hv : pyGetOpt v "event" = .ok ev)
    (hne : ∀ s2 : String, ev = some (.jstr s2) → s2 ≠ "posted") :
    handleEventEH u st ign L (.ok v) = .ok []
    ∧ (∀ e : PyErr, handleEventEH u st ign L (.error e) = .error e) := by
  constructor
  · have h0 : handleEventEH u st ign L (.ok v)
        = (pyGetOpt v "event" >>= fun ev2 =>
            match ev2 with
            | some (.jstr "posted") => handlePostEH u st ign L v
            | _ => pure []) := rfl
    rw [h0, hv]
    show (match ev with
          | some (.jstr "posted") => handlePostEH u st ign L v
          | _ => pure []) = .ok []
    split
    · exact absurd rfl (hne "posted" rfl)
    · rfl
  · intro e
    rfl

/-- Witness for C8 as amended: an event with discriminator "typing" is
silently dropped and decode failures propagate. -/
theorem unposted_events_dropped_witness :
    handleEventEH "bot" benignSettings false [] (.ok (.jobj [("event", .jstr "typing")]))
        = .ok []
    ∧ (∀ e : PyErr, handleEventEH "bot" benignSettings false [] (.error e) = .error e) :=
  unposted_events_dropped "bot" benignSettings false []
    (.jobj [("event", .jstr "typing")]) (some (.jstr "typing")) rfl
    (by intro s2 h; cases h; decide)

theorem getQ_lt {α : Type} {l : List α} {n : Nat} {a : α}
    (h : l.get? n = some a) : n < l.length := by
  by_contra hc
  push_neg at hc
  rw [List.get?_eq_none.mpr hc] at h
  cases h

theorem pstep_alive {s : PoolState} {l : PoolLabel} {s2 : PoolState}
    (h : pstep s l = some s2) (ha : s.alive = false) : s2.alive = false := by
  cases l <;> simp only [pstep] at h <;> (repeat' split at h) <;>
    (try cases h) <;> simp_all

theorem pstep_workers_length {s : PoolState} {l : PoolLabel} {s2 : PoolState}
    (h : pstep s l = some s2) : s2.workers.length = s.workers.length := by
  cases l <;> simp only [pstep] at h <;> (repeat' split at h) <;>
    (try cases h) <;> simp_all [List.length_set]

theorem wsum_set (ws : List WStatus) (i : Nat) (a b : WStatus)
    (h : ws.get? i = some a) : wsum (ws.set i b) + tok a = wsum ws + tok b := by
  induction ws generalizing i with
  | nil => cases h
  | cons w ws ih =>
      cases i with
      | zero =>
          simp only [List.get?] at h
          injection h with h2
          subst h2
          simp [wsum, List.set]
          omega
      | succ i =>
          simp only [List.get?] at h
          have := ih i h
          simp only [List.set, wsum, List.map_cons, List.sum_cons] at *
          omega

theorem tok_le_wsum (ws : List WStatus) (i : Nat) (a : WStatus)
    (h : ws.get? i = some a) : tok a ≤ wsum ws := by
  induction ws generalizing i with
  | nil => cases h
  | cons w ws ih =>
      cases i with
      | zero =>
          simp only [List.get?] at h
          injection h with h2
          subst h2
          simp only [wsum, List.map_cons, List.sum_cons]
          omega
      | succ i =>
          simp only [List.get?] at h
          have := ih i h
          simp only [wsum, List.map_cons, List.sum_cons] at *
          omega

theorem wsum_le_length (ws : List WStatus) : wsum ws ≤ ws.length := by
  induction ws with
  | nil => simp [wsum]
  | cons w ws ih =>
      have ht : tok w ≤ 1 := by cases w <;> simp [tok]
      simp only [wsum, List.map_cons, List.sum_cons, List.length_cons] at *
      omega

theorem pstep_busy {s : PoolState} {l : PoolLabel} {s2 : PoolState}
    (h : pstep s l = some s2) (hb : s.busy = wsum s.workers) :
    s2.busy = wsum s2.workers := by
  cases l with
  | wLoop i =>
      simp only [pstep] at h
      split at h
      · rename_i heq
        cases h
        have := wsum_set s.workers i _ (if s.alive then .atGet else .exited) heq
        split at this <;> simp_all [tok]
      · cases h
  | wGet i =>
      simp only [pstep] at h
      split at h
      · rename_i t rest heq hq
        cases h
        have := wsum_set s.workers i _ (.gotTask t) heq
        simp_all [tok]
      · cases h
  | wBusy i =>
      simp only [pstep] at h
      split at h
      · rename_i t heq
        cases h
        have := wsum_set s.workers i _ (.running t) heq
        simp_all [tok]
      · cases h
  | wRun i =>
      simp only [pstep] at h
      split at h
      · rename_i t heq
        split at h <;> cases h
        · have := wsum_set s.workers i _ .crashed heq
          simp_all [tok]
        · have := wsum_set s.workers i _ (.doneTask t) heq
          simp_all [tok]
      · cases h
  | wDone i =>
      simp only [pstep] at h
      split at h
      · rename_i t heq
        cases h
        have h1 := wsum_set s.workers i _ .loopCheck heq
        have h2 := tok_le_wsum s.workers i _ heq
        simp only [tok] at h1 h2
        simp only []
        omega
      · cases h
  | addTask t =>
      simp only [pstep] at h
      split at h
      · cases h
      · cases h
        simpa using hb
  | stopSignal =>
      simp only [pstep] at h
      cases h
      simpa using hb
  | pushSentinel =>
      simp only [pstep] at h
      split at h
      · cases h
      · cases h
        simpa using hb
  | joinAll =>
      simp only [pstep] at h
      split at h
      · cases h
        simpa using hb
      · cases h

theorem prun_busy (tr : List PoolLabel) : ∀ (s s2 : PoolState),
    prun s tr = some s2 → s.busy = wsum s.workers → s2.busy = wsum s2.workers := by
  induction tr with
  | nil =>
      intro s s2 h hb
      cases h
      exact hb
  | cons l tr ih =>
      intro s s2 h hb
      rw [prun] at h
      cases hst : pstep s l with
      | none => rw [hst] at h; cases h
      | some s1 =>
          rw [hst] at h
          exact ih s1 s2 h (pstep_busy hst hb)

theorem prun_workers_length (tr : List PoolLabel) : ∀ (s s2 : PoolState),
    prun s tr = some s2 → s2.workers.length = s.workers.length := by
  induction tr with
  | nil =>
      intro s s2 h
      cases h
      rfl
  | cons l tr ih =>
      intro s s2 h
      rw [prun] at h
      cases hst : pstep s l with
      | none => rw [hst] at h; cases h
      | some s1 =>
          rw [hst] at h
          rw [ih s1 s2 h, pstep_workers_length hst]

theorem wsum_replicate_loopCheck (n : Nat) :
    wsum (List.replicate n .loopCheck) = 0 := by
  induction n with
  | zero => rfl
  | succ n ih =>
      simp only [List.replicate, wsum, List.map_cons, List.sum_cons, tok] at *
      omega

/-- C10: in every reachable state of a started worker pool, the value of
get_busy_workers lies between 0 and num_workers inclusive: every worker
deposits exactly one busy token immediately before invoking a task and
removes it after the invocation completes, so no worker ever contributes
more than one token (a bound that holds even when an invocation raises and
the token is never removed). -/
theorem busy_workers_bounded (n : Nat) (tr : List PoolLabel) (s : PoolState)
    (h : prun (initPool n) tr = some s) : s.busy ≤ n := by
  have hb : s.busy = wsum s.workers :=
    prun_busy tr (initPool n) s h (by simp [initPool, wsum_replicate_loopCheck])
  have hlen : s.workers.length = n := by
    have := prun_workers_length tr (initPool n) s h
    simpa [initPool] using this
  have := wsum_le_length s.workers
  omega

/-- Witness for C10: after one worker of a two-worker pool dequeues a task
and deposits its busy token, the busy count of the reached state is within
the bound. -/
theorem busy_workers_bounded_witness :
    (PoolState.mk true [] 1 [WStatus.running taskOk1, WStatus.loopCheck] [] false).busy
      ≤ 2 :=
  busy_workers_bounded 2 [.addTask taskOk1, .wLoop 0, .wGet 0, .wBusy 0]
    (PoolState.mk true [] 1 [WStatus.running taskOk1, WStatus.loopCheck] [] false) rfl

theorem runsLeft_le_one (w : WStatus) : runsLeft w ≤ 1 := by
  cases w <;> simp [runsLeft]

theorem runsLeftAt_set (ws : List WStatus) (j : Nat) (v : WStatus) (i : Nat)
    (hj : j < ws.length) :
    ((ws.set j v).get? i).getD .exited
      = if i = j then v else (ws.get? i).getD .exited := by
  rw [List.get?_set_of_lt' _ _ hj]
  by_cases hij : i = j
  · subst hij
    simp
  · rw [if_neg (fun hh => hij hh.symm), if_neg hij]

theorem pstep_runsLeft {s : PoolState} {l : PoolLabel} {s2 : PoolState} {i : Nat}
    (h : pstep s l = some s2) (ha : s.alive = false) (hne : l ≠ .wRun i) :
    runsLeftAt s2 i ≤ runsLeftAt s i := by
  cases l with
  | wLoop j =>
      simp only [pstep] at h
      split at h
      · rename_i heq
        cases h
        have hj := getQ_lt heq
        simp only [runsLeftAt, runsLeftAt_set s.workers j _ i hj]
        by_cases hij : i = j
        · subst hij
          rw [heq] at *
          simp_all [runsLeft, ha]
        · simp [hij]
      · cases h
  | wGet j =>
      simp only [pstep] at h
      split at h
      · rename_i t rest heq hq
        cases h
        have hj := getQ_lt heq
        simp only [runsLeftAt, runsLeftAt_set s.workers j _ i hj]
        by_cases hij : i = j
        · subst hij
          rw [heq]
          simp [runsLeft]
        · simp [hij]
      · cases h
  | wBusy j =>
      simp only [pstep] at h
      split at h
      · rename_i t heq
        cases h
        have hj := getQ_lt heq
        simp only [runsLeftAt, runsLeftAt_set s.workers j _ i hj]
        by_cases hij : i = j
        · subst hij
          rw [heq]
          simp [runsLeft]
        · simp [hij]
      · cases h
  | wRun j =>
      have hij : i ≠ j := fun hh => hne (by rw [hh])
      simp only [pstep] at h
      split at h
      · rename_i t heq
        have hj := getQ_lt heq
        split at h <;> cases h <;>
          (simp only [runsLeftAt, runsLeftAt_set s.workers j _ i hj]; simp [hij])
      · cases h
  | wDone j =>
      simp only [pstep] at h
      split at h
      · rename_i t heq
        cases h
        have hj := getQ_lt heq
        simp only [runsLeftAt, runsLeftAt_set s.workers j _ i hj]
        by_cases hij : i = j
        · subst hij
          rw [heq]
          simp [runsLeft]
        · simp [hij]
      · cases h
  | addTask t =>
      simp only [pstep] at h
      split at h
      · cases h
      · cases h
        simp [runsLeftAt]
  | stopSignal =>
      simp only [pstep] at h
      cases h
      simp [runsLeftAt]
  | pushSentinel =>
      simp only [pstep] at h
      split at h
      · cases h
      · cases h
        simp [runsLeftAt]
  | joinAll =>
      simp only [pstep] at h
      split at h
      · cases h
        simp [runsLeftAt]
      · cases h

theorem countRun_le (tr : List PoolLabel) : ∀ (s s2 : PoolState) (i : Nat),
    s.alive = false → prun s tr = some s2 → countRun i tr ≤ runsLeftAt s i := by
  induction tr with
  | nil =>
      intro s s2 i ha h
      simp [countRun]
  | cons l tr ih =>
      intro s s2 i ha h
      rw [prun] at h
      cases hst : pstep s l with
      | none => rw [hst] at h; cases h
      | some s1 =>
          rw [hst] at h
          have ha1 : s1.alive = false := pstep_alive hst ha
          have htail := ih s1 s2 i ha1 h
          by_cases hl : l = .wRun i
          · subst hl
            have hcount : countRun i (PoolLabel.wRun i :: tr) = countRun i tr + 1 := by
              simp [countRun, List.countP_cons]
            simp only [pstep] at hst
            split at hst
            · rename_i t heq
              have hj := getQ_lt heq
              have hsrc : runsLeftAt s i = 1 := by
                unfold runsLeftAt
                rw [heq]
                rfl
              have hdst : runsLeftAt s1 i = 0 := by
                split at hst <;> cases hst <;>
                  (unfold runsLeftAt;
                   simp only [runsLeftAt_set s.workers i _ i hj];
                   simp [runsLeft])
              omega
            · cases hst
          · have hcount : countRun i (l :: tr) = countRun i tr := by
              simp [countRun, List.countP_cons, hl]
            have hmono := pstep_runsLeft hst ha hl
            omega

theorem pstep_joined {s : PoolState} {l : PoolLabel} {s2 : PoolState}
    (h : pstep s l = some s2)
    (hj : s.joined = true → s.workers.all terminated = true) :
    s2.joined = true → s2.workers.all terminated = true := by
  intro hj2
  have hterm : ∀ (j : Nat) (w : WStatus), s.workers.get? j = some w →
      s.joined = true → terminated w = true := by
    intro j w heq hjj
    exact List.all_eq_true.mp (hj hjj) w (List.get?_mem heq)
  cases l with
  | wLoop j =>
      simp only [pstep] at h
      split at h
      · rename_i heq
        cases h
        simp only [] at hj2
        have := hterm j _ heq hj2
        simp [terminated] at this
      · cases h
  | wGet j =>
      simp only [pstep] at h
      split at h
      · rename_i t rest heq hq
        cases h
        simp only [] at hj2
        have := hterm j _ heq hj2
        simp [terminated] at this
      · cases h
  | wBusy j =>
      simp only [pstep] at h
      split at h
      · rename_i t heq
        cases h
        simp only [] at hj2
        have := hterm j _ heq hj2
        simp [terminated] at this
      · cases h
  | wRun j =>
      simp only [pstep] at h
      split at h
      · rename_i t heq
        split at h <;> cases h <;>
          (simp only [] at hj2;
           have := hterm j _ heq hj2;
           simp [terminated] at this)
      · cases h
  | wDone j =>
      simp only [pstep] at h
      split at h
      · rename_i t heq
        cases h
        simp only [] at hj2
        have := hterm j _ heq hj2
        simp [terminated] at this
      · cases h
  | addTask t =>
      simp only [pstep] at h
      split at h
      · cases h
      · cases h
        exact hj hj2
  | stopSignal =>
      simp only [pstep] at h
      cases h
      exact hj hj2
  | pushSentinel =>
      simp only [pstep] at h
      split at h
      · cases h
      · cases h
        exact hj hj2
  | joinAll =>
      simp only [pstep] at h
      split at h
      · rename_i hall
        cases h
        exact hall
      · cases h

theorem prun_joined (tr : List PoolLabel) : ∀ (s s2 : PoolState),
    (s.joined = true → s.workers.all terminated = true) →
    prun s tr = some s2 →
    (s2.joined = true → s2.workers.all terminated = true) := by
  induction tr with
  | nil =>
      intro s s2 hj h
      cases h
      exact hj
  | cons l tr ih =>
      intro s s2 hj h
      rw [prun] at h
      cases hst : pstep s l with
      | none => rw [hst] at h; cases h
      | some s1 =>
          rw [hst] at h
          exact ih s1 s2 (pstep_joined hst hj) h

/-- C2 counterexample: on a one-worker pool, two tasks are enqueued before
stop() is called, yet stop() returns (the pool is joined) with only the
first task executed: the worker exits at its loop check once the alive flag
is false, leaving the second enqueued task and the sentinel on the queue,
never to be run. -/
theorem stop_drops_enqueued_task_cex :
    prun (initPool 1) dropTrace
      = some { alive := false, queue := [taskOk2, sentinelTask], busy := 0,
               workers := [.exited], log := [1], joined := true } := rfl

/-- C2 as amended: stop() waits only for the worker threads, not for the
enqueued tasks: once the alive flag has been cleared by stop(), every worker
invokes at most one further task before exiting, and the pool is joined only
when every worker thread has terminated — so tasks enqueued beyond each
worker's final pickup are dropped rather than executed. -/
theorem stop_waits_for_workers_not_tasks
    (n : Nat) (tr1 tr2 : List PoolLabel) (s s2 : PoolState) (i : Nat)
    (h1 : prun (initPool n) tr1 = some s) (ha : s.alive = false)
    (h2 : prun s tr2 = some s2) :
    countRun i tr2 ≤ 1
    ∧ (s2.joined = true → s2.workers.all terminated = true) := by
  constructor
  · have hb := countRun_le tr2 s s2 i ha h2
    have hone : runsLeftAt s i ≤ 1 := by
      unfold runsLeftAt
      exact runsLeft_le_one _
    omega
  · have j0 : (initPool n).joined = true → (initPool n).workers.all terminated = true := by
      intro hc
      simp [initPool] at hc
    exact prun_joined tr2 s s2 (prun_joined tr1 (initPool n) s j0 h1) h2

/-- Witness for C2 as amended: after the stop signal of the dropped-task
schedule, the single worker runs exactly one more task and the joined state
has its worker terminated. -/
theorem stop_waits_for_workers_not_tasks_witness :
    countRun 0 [PoolLabel.wGet 0, .wBusy 0, .wRun 0, .wDone 0, .wLoop 0, .joinAll] ≤ 1
    ∧ ((PoolState.mk false [taskOk2, sentinelTask] 0 [WStatus.exited] [1] true).joined = true
        → (PoolState.mk false [taskOk2, sentinelTask] 0 [WStatus.exited] [1] true).workers.all
            terminated = true) :=
  stop_waits_for_workers_not_tasks 1
    [.wLoop 0, .addTask taskOk1, .addTask taskOk2, .stopSignal, .pushSentinel]
    [.wGet 0, .wBusy 0, .wRun 0, .wDone 0, .wLoop 0, .joinAll]
    (PoolState.mk false [taskOk1, taskOk2, sentinelTask] 0 [WStatus.atGet] [] false)
    (PoolState.mk false [taskOk2, sentinelTask] 0 [WStatus.exited] [1] true)
    0 rfl rfl rfl

/-- C3 counterexample: on a one-worker pool, a task that raises terminates
the worker thread: after the raising invocation the only worker is crashed
(its busy token still deposited), the next enqueued task remains on the
queue, and the pool has lost its worker — the exception is not caught at the
task-invocation boundary inside handle_work. -/
theorem raising_task_kills_worker_cex :
    prun (initPool 1) crashTrace
      = some { alive := true, queue := [taskOk2], busy := 1,
               workers := [.crashed], log := [], joined := false } := rfl

theorem pstep_crashed {s : PoolState} {l : PoolLabel} {s2 : PoolState} {i : Nat}
    (h : pstep s l = some s2) (hc : s.workers.get? i = some .crashed) :
    s2.workers.get? i = some .crashed ∧ l ≠ .wRun i := by
  cases l with
  | wLoop j =>
      simp only [pstep] at h
      split at h
      · rename_i heq
        cases h
        have hij : i ≠ j := by
          intro hh
          subst hh
          rw [hc] at heq
          cases heq
        constructor
        · simp only []
          rw [List.get?_set_ne _ _ (fun hh => hij hh.symm)]
          exact hc
        · intro hh
          cases hh
      · cases h
  | wGet j =>
      simp only [pstep] at h
      split at h
      · rename_i t rest heq hq
        cases h
        have hij : i ≠ j := by
          intro hh
          subst hh
          rw [hc] at heq
          cases heq
        constructor
        · simp only []
          rw [List.get?_set_ne _ _ (fun hh => hij hh.symm)]
          exact hc
        · intro hh
          cases hh
      · cases h
  | wBusy j =>
      simp only [pstep] at h
      split at h
      · rename_i t heq
        cases h
        have hij : i ≠ j := by
          intro hh
          subst hh
          rw [hc] at heq
          cases heq
        constructor
        · simp only []
          rw [List.get?_set_ne _ _ (fun hh => hij hh.symm)]
          exact hc
        · intro hh
          cases hh
      · cases h
  | wRun j =>
      simp only [pstep] at h
      split at h
      · rename_i t heq
        have hij : i ≠ j := by
          intro hh
          subst hh
          rw [hc] at heq
          cases heq
        split at h <;> cases h <;>
          exact ⟨by rw [List.get?_set_ne _ _ (fun hh => hij hh.symm)]; exact hc,
                 fun hh => by cases hh; exact hij rfl⟩
      · cases h
  | wDone j =>
      simp only [pstep] at h
      split at h
      · rename_i t heq
        cases h
        have hij : i ≠ j := by
          intro hh
          subst hh
          rw [hc] at heq
          cases heq
        constructor
        · simp only []
          rw [List.get?_set_ne _ _ (fun hh => hij hh.symm)]
          exact hc
        · intro hh
          cases hh
      · cases h
  | addTask t =>
      simp only [pstep] at h
      split at h
      · cases h
      · cases h
        exact ⟨hc, by intro hh; cases hh⟩
  | stopSignal =>
      simp only [pstep] at h
      cases h
      exact ⟨hc, by intro hh; cases hh⟩
  | pushSentinel =>
      simp only [pstep] at h
      split at h
      · cases h
      · cases h
        exact ⟨hc, by intro hh; cases hh⟩
  | joinAll =>
      simp only [pstep] at h
      split at h
      · cases h
        exact ⟨hc, by intro hh; cases hh⟩
      · cases h

/-- C3 as amended: the exception of a raising task propagates out of
handle_work and permanently terminates the worker thread: from any state in
which worker i has crashed, every continuation keeps it crashed and it never
invokes another task (other live workers may still pick up queued tasks, but
this worker is lost to the pool). -/
theorem crashed_worker_never_runs_again
    (tr : List PoolLabel) : ∀ (s s2 : PoolState) (i : Nat),
    s.workers.get? i = some .crashed → prun s tr = some s2 →
    s2.workers.get? i = some .crashed ∧ countRun i tr = 0 := by
  induction tr with
  | nil =>
      intro s s2 i hc h
      cases h
      exact ⟨hc, rfl⟩
  | cons l tr ih =>
      intro s s2 i hc h
      rw [prun] at h
      cases hst : pstep s l with
      | none => rw [hst] at h; cases h
      | some s1 =>
          rw [hst] at h
          obtain ⟨hc1, hne⟩ := pstep_crashed hst hc
          obtain ⟨hc2, hcnt⟩ := ih s1 s2 i hc1 h
          refine ⟨hc2, ?_⟩
          unfold countRun at hcnt ⊢
          rw [List.countP_cons, hcnt]
          simp [hne]

/-- Witness for C3 as amended: from the crashed state reached by the
counterexample schedule, a further enqueue leaves the worker crashed and it
performs no invocation. -/
theorem crashed_worker_never_runs_again_witness :
    (PoolState.mk true [taskOk2, taskOk1] 1 [WStatus.crashed] [] false).workers.get? 0
        = some WStatus.crashed
    ∧ countRun 0 [PoolLabel.addTask taskOk1] = 0 :=
  crashed_worker_never_runs_again [PoolLabel.addTask taskOk1]
    (PoolState.mk true [taskOk2] 1 [WStatus.crashed] [] false)
    (PoolState.mk true [taskOk2, taskOk1] 1 [WStatus.crashed] [] false)
    0 rfl rfl

theorem lookupL_addListener (ls : List (Re × List RegFunc)) (g : RegFunc) (pat : Re) :
    lookupL (addListener ls g) pat
      = lookupL ls pat ++ (if g.matcher = pat then [g] else []) := by
  induction ls with
  | nil =>
      simp only [addListener, lookupL]
      split <;> simp_all
  | cons e ls ih =>
      rcases e with ⟨m, fs⟩
      simp only [addListener]
      by_cases h1 : m = g.matcher
      · rw [if_pos h1]
        simp only [lookupL]
        by_cases h2 : m = pat
        · rw [if_pos h2, if_pos h2, if_pos (h1 ▸ h2)]
        · rw [if_neg h2, if_neg h2, if_neg (fun hh => h2 (h1.trans hh))]
          simp
      · rw [if_neg h1]
        simp only [lookupL]
        by_cases h2 : m = pat
        · rw [if_pos h2, if_pos h2, if_neg (fun hh => h1 (h2.trans hh.symm))]
          simp
        · rw [if_neg h2, if_neg h2, ih]

theorem lookupL_foldl (regs : List RegFunc) : ∀ (ls : List (Re × List RegFunc)) (pat : Re),
    lookupL (regs.foldl addListener ls) pat
      = lookupL ls pat ++ regs.filter (fun g => g.matcher = pat) := by
  induction regs with
  | nil =>
      intro ls pat
      simp
  | cons g regs ih =>
      intro ls pat
      rw [List.foldl_cons, ih, lookupL_addListener, List.filter_cons]
      by_cases h : g.matcher = pat <;> simp [h]

/-- C9: Plugin.initialize registers each discovered listener function
together with all of its siblings, setting each owner to the plugin and
appending to the per-pattern listener list in discovery order, and returns
the plugin itself (same identity and members, with the driver bound);
calling initialize a second time on the same plugin appends every discovered
entry again, duplicating the per-pattern listener lists rather than
deduplicating them. -/
theorem plugin_initialize_registers (p : RPlugin) (d : Nat) (pat : Re)
    (h0 : p.listeners = []) :
    (initPlugin p d).pid = p.pid
    ∧ (initPlugin p d).members = p.members
    ∧ (initPlugin p d).driver = some d
    ∧ lookupL (initPlugin p d).listeners pat
        = (regList p).filter (fun g => g.matcher = pat)
    ∧ lookupL (initPlugin (initPlugin p d) d).listeners pat
        = (regList p).filter (fun g => g.matcher = pat)
          ++ (regList p).filter (fun g => g.matcher = pat) := by
  have hreg : regList (initPlugin p d) = regList p := rfl
  refine ⟨rfl, rfl, rfl, ?_, ?_⟩
  · show lookupL ((regList p).foldl addListener p.listeners) pat = _
    rw [lookupL_foldl, h0]
    rfl
  · show lookupL ((regList (initPlugin p d)).foldl addListener
        (initPlugin p d).listeners) pat = _
    rw [lookupL_foldl, hreg]
    congr 1
    show lookupL ((regList p).foldl addListener p.listeners) pat = _
    rw [lookupL_foldl, h0]
    rfl

/-- Witness for C9: initializing the sample plugin registers, under the
pattern shared by the sibling of the first member and the second member,
both functions in discovery order with owner set; a second initialization
duplicates the list. -/
theorem plugin_initialize_registers_witness :
    (initPlugin samplePlugin 1).pid = samplePlugin.pid
    ∧ (initPlugin samplePlugin 1).members = samplePlugin.members
    ∧ (initPlugin samplePlugin 1).driver = some 1
    ∧ lookupL (initPlugin samplePlugin 1).listeners reP2
        = (regList samplePlugin).filter (fun g => g.matcher = reP2)
    ∧ lookupL (initPlugin (initPlugin samplePlugin 1) 1).listeners reP2
        = (regList samplePlugin).filter (fun g => g.matcher = reP2)
          ++ (regList samplePlugin).filter (fun g => g.matcher = reP2) :=
  plugin_initialize_registers samplePlugin 1 reP2 rfl

end Snaketalk
